import Mathlib

/-!
Verification of the AST-based router updater
(`src/services/ast-router-updater.ts` of the katax-cli repository).

The updater parses a router source file into a sequence of top-level
statements, answers existence queries over them, and inserts or removes an
an import declaration plus a route-registration call.  The TypeScript compiler
API (parsing, printing, file I/O) is external to the repository; we model a
file by its parsed top-level statement sequence `List Stmt` and assume the
parse/print round trip is faithful, so each operation becomes a pure
function on statement lists, exactly mirroring the logic of the repository
(`insertImportAndRoute`, the scan loops, and the removal filter).
-/

namespace Katax

/-- A call argument, as far as the updater ever inspects one:
`ts.isStringLiteral(arg)` with its `.text`, `ts.isIdentifier(arg)` with its
`.text`, or anything else (kept opaque, tagged so distinct arguments stay
distinct). -/
inductive Arg : Type where
  | strLit (text : String)
  | ident (text : String)
  | otherArg (tag : Nat)
  deriving DecidableEq, Repr, Inhabited

/-- The callee of a call expression.  The updater only ever tests
`ts.isPropertyAccessExpression(callee)` and reads `callee.name.text`; the
receiver expression is never inspected, so it is kept as an opaque string. -/
inductive Callee : Type where
  | propAccess (receiver : String) (name : String)
  | otherCallee (tag : Nat)
  deriving DecidableEq, Repr, Inhabited

/-- The expression of an expression statement: a call expression with its
callee and argument list, or anything else (opaque). -/
inductive Expression : Type where
  | call (callee : Callee) (args : List Arg)
  | otherExpr (tag : Nat)
  deriving DecidableEq, Repr, Inhabited

/-- A top-level statement, covering exactly the shapes the updater
discriminates with the TypeScript API:
* `importDecl name modulePath` — an `ImportDeclaration`; `name` models
  `importClause?.name?.text` (`none` when there is no default binding);
* `exprStmt e` — an `ExpressionStatement`;
* `exportAssignment` — an `ExportAssignment` (`export default ...`);
* `exportDecl hasClause` — an `ExportDeclaration`, `hasClause` recording
  whether `exportClause` is defined;
* `otherStmt` — any other statement, opaque and tagged. -/
inductive Stmt : Type where
  | importDecl (name : Option String) (modulePath : String)
  | exprStmt (e : Expression)
  | exportAssignment (tag : Nat)
  | exportDecl (hasClause : Bool) (tag : Nat)
  | otherStmt (tag : Nat)
  deriving DecidableEq, Repr, Inhabited

/-- The `RouteUpdate` interface of the source. -/
structure RouteUpdate : Type where
  routerName : String
  importPath : String
  routePath : String
  deriving DecidableEq, Repr

/-- `ts.isImportDeclaration`. -/
def isImportDeclaration : Stmt → Bool
  | .importDecl _ _ => true
  | _ => false

/-- `ts.isExportAssignment`. -/
def isExportAssignment : Stmt → Bool
  | .exportAssignment _ => true
  | _ => false

/-- `ts.isExportDeclaration(s) && s.exportClause === undefined`. -/
def isExportDeclWithoutClause : Stmt → Bool
  | .exportDecl hasClause _ => !hasClause
  | _ => false

/-- The "export default" test of the scan in `insertImportAndRoute`:
an export assignment, or an export declaration with no named clause. -/
def isExportDefaultForm (s : Stmt) : Bool :=
  isExportAssignment s || isExportDeclWithoutClause s

/-- `ASTRouterUpdater.createImportDeclaration`: a default import binding
`routerName` to the module path `importPath`. -/
def createImportDeclaration (routerName importPath : String) : Stmt :=
  Stmt.importDecl (some routerName) importPath

/-- `ASTRouterUpdater.createRouteRegistration`: the statement
`router.use(routePath, routerName)`. -/
def createRouteRegistration (routerName routePath : String) : Stmt :=
  Stmt.exprStmt (Expression.call (Callee.propAccess "router" "use")
    [Arg.strLit routePath, Arg.ident routerName])

/-- The first scan of `insertImportAndRoute`: the forward loop that keeps
updating `lastImportIndex` at every import declaration (`-1` if none). -/
def lastImportIndexAux : List Stmt → Nat → Int → Int
  | [], _, acc => acc
  | s :: rest, i, acc =>
      lastImportIndexAux rest (i + 1)
        (if isImportDeclaration s then (i : Int) else acc)

/-- Index of the last import declaration, `-1` when there is none. -/
def lastImportIndex (statements : List Stmt) : Int :=
  lastImportIndexAux statements 0 (-1)

/-- The second scan of `insertImportAndRoute`: the forward loop that breaks
at the first export-default form (`-1` if none). -/
def exportDefaultIndexAux : List Stmt → Nat → Int
  | [], _ => -1
  | s :: rest, i =>
      if isExportDefaultForm s then (i : Int) else exportDefaultIndexAux rest (i + 1)

/-- Index of the first export-default form, `-1` when there is none. -/
def exportDefaultIndex (statements : List Stmt) : Int :=
  exportDefaultIndexAux statements 0

/-- The mutable state of the insertion loop of `insertImportAndRoute`:
the `result` array and the `importInserted` / `routeInserted` flags. -/
structure InsertState : Type where
  result : List Stmt
  importInserted : Bool
  routeInserted : Bool
  deriving DecidableEq, Repr

/-- One iteration of the insertion loop: push `statements[i]`; push the new
the import if `i === lastImportIndex && !importInserted` (setting the flag);
then push the new route if
`exportDefaultIndex !== -1 && i === exportDefaultIndex - 1 && !routeInserted`
(setting the flag).  The route test reads the flags after the import push,
but the import push does not change `routeInserted`, so both hit tests are
phrased against the incoming state. -/
def insertStep (importToAdd routeToAdd : Stmt) (lastImp expIdx : Int)
    (i : Nat) (st : InsertState) (s : Stmt) : InsertState :=
  let impHit : Bool := decide ((i : Int) = lastImp) && !st.importInserted
  let rtHit : Bool :=
    decide (expIdx ≠ -1) && decide ((i : Int) = expIdx - 1) && !st.routeInserted
  { result := st.result ++ [s] ++ (if impHit then [importToAdd] else [])
      ++ (if rtHit then [routeToAdd] else []),
    importInserted := st.importInserted || impHit,
    routeInserted := st.routeInserted || rtHit }

/-- The insertion loop of `insertImportAndRoute`, iterating `insertStep`
over the statements with their indices. -/
def insertLoop (importToAdd routeToAdd : Stmt) (lastImp expIdx : Int) :
    List Stmt → Nat → InsertState → InsertState
  | [], _, st => st
  | s :: rest, i, st =>
      insertLoop importToAdd routeToAdd lastImp expIdx rest (i + 1)
        (insertStep importToAdd routeToAdd lastImp expIdx i st s)

/-- `ASTRouterUpdater.insertImportAndRoute`: run the two scans, run the
insertion loop, then the two fallbacks — append the route if it was never
inserted, and prepend the import if it was never inserted. -/
def insertImportAndRoute (statements : List Stmt)
    (importToAdd routeToAdd : Stmt) : List Stmt :=
  let lastImp := lastImportIndex statements
  let expIdx := exportDefaultIndex statements
  let st := insertLoop importToAdd routeToAdd lastImp expIdx statements 0
    ⟨[], false, false⟩
  let withRoute := if st.routeInserted = false then st.result ++ [routeToAdd] else st.result
  if st.importInserted = false then importToAdd :: withRoute else withRoute

/-- `ASTRouterUpdater.addRoute` on the parsed statement sequence: build the
new import and registration and insert them.  (The surrounding
read/parse/print/write cycle is the TypeScript API, modelled as a faithful
round trip.) -/
def addRoute (statements : List Stmt) (update : RouteUpdate) : List Stmt :=
  insertImportAndRoute statements
    (createImportDeclaration update.routerName update.importPath)
    (createRouteRegistration update.routerName update.routePath)

/-- `ASTRouterUpdater.importExists`: scan for an import declaration whose
`importClause?.name?.text` equals `routerName`. -/
def importExists (statements : List Stmt) (routerName : String) : Bool :=
  statements.any fun s =>
    match s with
    | .importDecl (some n) _ => n = routerName
    | _ => false

/-- `ASTRouterUpdater.routeExists`: scan for an expression statement that is
a call on a property access named `use` whose first argument is a string
literal equal to `routePath`. -/
def routeExists (statements : List Stmt) (routePath : String) : Bool :=
  statements.any fun s =>
    match s with
    | .exprStmt (Expression.call (Callee.propAccess _ name) args) =>
        name = "use" &&
          (match args with
           | Arg.strLit p :: _ => p = routePath
           | _ => false)
    | _ => false

/-- The removal test of `ASTRouterUpdater.removeRoute` (negation of the
keep-condition of the filter): an import declaration whose bound name equals
`routerName`, or an expression statement that is a call on a property
access with more than one argument whose second argument is an identifier
equal to `routerName`. -/
def shouldRemove (routerName : String) : Stmt → Bool
  | .importDecl (some n) _ => n = routerName
  | .exprStmt (Expression.call (Callee.propAccess _ _) args) =>
      match args[1]? with
      | some (Arg.ident n) => n = routerName
      | _ => false
  | _ => false

/-- `ASTRouterUpdater.removeRoute` on the parsed statement sequence:
filter out the statements matched by `shouldRemove`. -/
def removeRoute (statements : List Stmt) (routerName : String) : List Stmt :=
  statements.filter fun s => !shouldRemove routerName s

/-- `importExists` with its file effect made explicit: the source reads the
file and never calls `writeFile`, so the operation returns its boolean and
leaves the statement sequence as it was. -/
def importExistsRun (statements : List Stmt) (routerName : String) :
    Bool × List Stmt :=
  (importExists statements routerName, statements)

/-- `routeExists` with its file effect made explicit: the source reads the
file and never calls `writeFile`, so the operation returns its boolean and
leaves the statement sequence as it was. -/
def routeExistsRun (statements : List Stmt) (routePath : String) :
    Bool × List Stmt :=
  (routeExists statements routePath, statements)

/-! ### Predicates taken from the specification and claims, and concrete
inputs used for witnesses -/

/-- An `ImportStatement` binding the router name of the request to the
module path of the request (the statement `createImportDeclaration` builds). -/
def isMatchingImport (u : RouteUpdate) (s : Stmt) : Bool :=
  decide (s = createImportDeclaration u.routerName u.importPath)

/-- A route registration of the form
`router.use(request.routePath, request.routerName)`. -/
def isMatchingRegistration (u : RouteUpdate) (s : Stmt) : Bool :=
  decide (s = createRouteRegistration u.routerName u.routePath)

/-- The criterion of the specification for `routeExists`: a top-level expression
statement that is a call on a property access whose property name is `use`
and whose first argument is a string literal equal to `routePath`. -/
def isUseRegistrationWithPath (routePath : String) (s : Stmt) : Bool :=
  match s with
  | Stmt.exprStmt (Expression.call (Callee.propAccess _ name) args) =>
      name = "use" &&
        (match args[0]? with
         | some (Arg.strLit p) => p = routePath
         | _ => false)
  | _ => false

/-- The removal criterion of the specification for `removeRoute`: an
`ImportStatement` whose bound name equals `boundName`, or a
route-registration call whose second argument is an identifier equal to
`boundName`. -/
def specRemovalMatch (boundName : String) (s : Stmt) : Bool :=
  (match s with
   | Stmt.importDecl (some n) _ => n = boundName
   | _ => false) ||
  (match s with
   | Stmt.exprStmt (Expression.call (Callee.propAccess _ _) args) =>
       (match args[1]? with
        | some (Arg.ident n) => n = boundName
        | _ => false)
   | _ => false)

/-- A top-level expression statement that is a method call (a call on a
property access) whose second argument is an identifier equal to
`boundName` — with no condition on the method name or the receiver. -/
def isMethodCallWithSecondIdent (boundName : String) (s : Stmt) : Bool :=
  match s with
  | Stmt.exprStmt (Expression.call (Callee.propAccess _ _) args) =>
      (match args[1]? with
       | some (Arg.ident n) => n = boundName
       | _ => false)
  | _ => false

/-- Sample update request used by the concrete witnesses. -/
def sampleUpdate : RouteUpdate :=
  ⟨"usersRouter", "./users/users.routes.js", "/users"⟩

/-- A file with one import, one other statement and a trailing default
export. -/
def sampleTrailingExportFile : List Stmt :=
  [Stmt.importDecl (some "a") "./a.js", Stmt.otherStmt 7, Stmt.exportAssignment 0]

/-- A file whose only statement is the default export. -/
def sampleExportFirstFile : List Stmt :=
  [Stmt.exportAssignment 0]

/-- A file with one opaque statement followed by the default export. -/
def sampleBodyThenExportFile : List Stmt :=
  [Stmt.otherStmt 0, Stmt.exportAssignment 0]

/-- A file with a single opaque statement (no import, no export). -/
def sampleOtherOnlyFile : List Stmt :=
  [Stmt.otherStmt 0]

/-- `logger.log(x, usersRouter)` — a method call that is not a route
registration but has an identifier second argument. -/
def loggerCallExample : Stmt :=
  Stmt.exprStmt (Expression.call (Callee.propAccess "logger" "log")
    [Arg.ident "x", Arg.ident "usersRouter"])

/-- `app.listen(port, usersRouter)` — likewise. -/
def appListenExample : Stmt :=
  Stmt.exprStmt (Expression.call (Callee.propAccess "app" "listen")
    [Arg.ident "port", Arg.ident "usersRouter"])

/-! ### Lemmas about the insertion loop -/

theorem insertLoop_nil (imp rt : Stmt) (k e : Int) (i : Nat) (st : InsertState) :
    insertLoop imp rt k e [] i st = st := rfl

theorem insertLoop_cons (imp rt : Stmt) (k e : Int) (s : Stmt) (rest : List Stmt)
    (i : Nat) (st : InsertState) :
    insertLoop imp rt k e (s :: rest) i st =
      insertLoop imp rt k e rest (i + 1) (insertStep imp rt k e i st s) := rfl

/-- The loop over a concatenation is the loop over the first part followed by
the loop over the second, with the index advanced. -/
theorem insertLoop_append (imp rt : Stmt) (k e : Int) (pre post : List Stmt)
    (i : Nat) (st : InsertState) :
    insertLoop imp rt k e (pre ++ post) i st =
      insertLoop imp rt k e post (i + pre.length)
        (insertLoop imp rt k e pre i st) := by
  induction pre generalizing i st with
  | nil => simp [insertLoop]
  | cons s pre ih =>
      simp only [List.cons_append, insertLoop_cons, List.length_cons]
      rw [ih]
      congr 1
      omega

/-- A segment of the loop in which neither insertion can fire (because the
corresponding flag is already set, or the matching index lies outside the
segment) just appends the statements. -/
theorem insertLoop_pass (imp rt : Stmt) (k e : Int) (rest : List Stmt)
    (i : Nat) (st : InsertState)
    (hImp : st.importInserted = true ∨ k < (i : Int) ∨ (i : Int) + rest.length ≤ k)
    (hRt : st.routeInserted = true ∨ e - 1 < (i : Int) ∨
      (i : Int) + rest.length ≤ e - 1) :
    insertLoop imp rt k e rest i st = { st with result := st.result ++ rest } := by
  induction rest generalizing i st with
  | nil => simp [insertLoop]
  | cons s rest ih =>
      have himp : (decide ((i : Int) = k) && !st.importInserted) = false := by
        rcases hImp with h | h | h
        · simp [h]
        · have : ¬ ((i : Int) = k) := by omega
          simp [this]
        · have : ¬ ((i : Int) = k) := by
            simp only [List.length_cons] at h
            push_cast at h
            omega
          simp [this]
      have hrt : (decide (e ≠ -1) && decide ((i : Int) = e - 1) &&
          !st.routeInserted) = false := by
        rcases hRt with h | h | h
        · simp [h]
        · have : ¬ ((i : Int) = e - 1) := by omega
          simp [this]
        · have : ¬ ((i : Int) = e - 1) := by
            simp only [List.length_cons] at h
            push_cast at h
            omega
          simp [this]
      rw [insertLoop_cons]
      have hstep : insertStep imp rt k e i st s =
          { st with result := st.result ++ [s] } := by
        simp only [insertStep]
        rw [himp, hrt]
        simp
      rw [hstep]
      rw [ih]
      · simp
      · rcases hImp with h | h | h
        · exact Or.inl h
        · right; left; omega
        · right; right
          simp only [List.length_cons] at h
          push_cast at h ⊢
          omega
      · rcases hRt with h | h | h
        · exact Or.inl h
        · right; left; omega
        · right; right
          simp only [List.length_cons] at h
          push_cast at h ⊢
          omega

/-- A step at the last-import index (and not at the pre-export index):
the statement and then the new import are pushed. -/
theorem insertStep_imp_only (imp rt : Stmt) (k e : Int) (i : Nat) (st : InsertState)
    (s : Stmt) (hik : (i : Int) = k) (hf : st.importInserted = false)
    (hrt : e = -1 ∨ ¬ ((i : Int) = e - 1) ∨ st.routeInserted = true) :
    insertStep imp rt k e i st s = ⟨st.result ++ [s, imp], true, st.routeInserted⟩ := by
  have h1 : (decide ((i : Int) = k) && !st.importInserted) = true := by
    simp [hik, hf]
  have h2 : (decide (e ≠ -1) && decide ((i : Int) = e - 1) && !st.routeInserted) = false := by
    rcases hrt with h | h | h <;> simp [h]
  simp only [insertStep]
  rw [h1, h2]
  simp

/-- A step at the pre-export index (and not at the last-import index):
the statement and then the new route are pushed. -/
theorem insertStep_rt_only (imp rt : Stmt) (k e : Int) (i : Nat) (st : InsertState)
    (s : Stmt) (he : e ≠ -1) (hie : (i : Int) = e - 1) (hf : st.routeInserted = false)
    (himp : ¬ ((i : Int) = k) ∨ st.importInserted = true) :
    insertStep imp rt k e i st s = ⟨st.result ++ [s, rt], st.importInserted, true⟩ := by
  have h1 : (decide ((i : Int) = k) && !st.importInserted) = false := by
    rcases himp with h | h <;> simp [h]
  have h2 : (decide (e ≠ -1) && decide ((i : Int) = e - 1) && !st.routeInserted) = true := by
    simp [he, hie, hf]
  simp only [insertStep]
  rw [h1, h2]
  simp

/-- A step that is both at the last-import index and at the pre-export
index: the statement, the new import, then the new route are pushed. -/
theorem insertStep_both (imp rt : Stmt) (k e : Int) (i : Nat) (st : InsertState)
    (s : Stmt) (hik : (i : Int) = k) (hfi : st.importInserted = false)
    (he : e ≠ -1) (hie : (i : Int) = e - 1) (hfr : st.routeInserted = false) :
    insertStep imp rt k e i st s = ⟨st.result ++ [s, imp, rt], true, true⟩ := by
  have h1 : (decide ((i : Int) = k) && !st.importInserted) = true := by
    simp [hik, hfi]
  have h2 : (decide (e ≠ -1) && decide ((i : Int) = e - 1) && !st.routeInserted) = true := by
    simp [he, hie, hfr]
  simp only [insertStep]
  rw [h1, h2]
  simp

/-- Full run of the insertion loop when the last import (index `kn`) comes
before the pre-export position (`kn < en`): the import lands right after
index `kn`, the route right before index `en`, both flags end true. -/
theorem insertLoop_run_imp_before_rt (imp rt : Stmt) (ss : List Stmt) (kn en : Nat)
    (hke : kn < en) (hen : en ≤ ss.length) :
    insertLoop imp rt (kn : Int) (en : Int) ss 0 ⟨[], false, false⟩ =
      ⟨ss.take (kn + 1) ++ [imp] ++ (ss.take en).drop (kn + 1) ++ [rt] ++
        ss.drop en, true, true⟩ := by
  have hkn : kn < ss.length := lt_of_lt_of_le hke hen
  have hlt : (ss.take kn).length = kn := List.length_take_of_le (le_of_lt hkn)
  have hknq : ss[kn]? = some ss[kn] := List.getElem?_eq_getElem hkn
  have htk : ss.take (kn + 1) = ss.take kn ++ [ss[kn]] := by
    rw [List.take_succ, hknq]; rfl
  by_cases hadj : kn + 1 = en
  · have hdec : ss = ss.take kn ++ ss[kn] :: ss.drop (kn + 1) := by
      conv_lhs => rw [← List.take_append_drop kn ss]
      rw [List.drop_eq_getElem_cons hkn]
    have hrun : insertLoop imp rt (kn : Int) (en : Int)
        (ss.take kn ++ ss[kn] :: ss.drop (kn + 1)) 0 ⟨[], false, false⟩ =
        ⟨ss.take (kn + 1) ++ [imp] ++ (ss.take en).drop (kn + 1) ++ [rt] ++
          ss.drop en, true, true⟩ := by
      rw [insertLoop_append]
      rw [insertLoop_pass imp rt (kn : Int) (en : Int) (ss.take kn) 0 ⟨[], false, false⟩
        (by right; right; simp only [hlt]; push_cast; omega)
        (by right; right; simp only [hlt]; push_cast; omega)]
      rw [insertLoop_cons]
      rw [insertStep_both imp rt (kn : Int) (en : Int) _ _ _
        (by simp only [hlt]; push_cast; omega)
        (by rfl)
        (by push_cast; omega)
        (by simp only [hlt]; push_cast; omega)
        (by rfl)]
      rw [insertLoop_pass imp rt (kn : Int) (en : Int) (ss.drop (kn + 1)) _ _
        (by left; rfl) (by left; rfl)]
      have hmid : (ss.take en).drop (kn + 1) = [] :=
        List.drop_eq_nil_of_le (by rw [List.length_take]; omega)
      rw [hmid, ← hadj, htk]
      simp only [List.append_assoc, List.singleton_append, List.cons_append,
        List.nil_append]
    rw [← hdec] at hrun
    exact hrun
  · have h1 : en - 1 < ss.length := by omega
    have h2 : kn + 1 ≤ en - 1 := by omega
    have hlen1 : (ss.take (en - 1)).length = en - 1 :=
      List.length_take_of_le (by omega)
    have hmlen : ((ss.take (en - 1)).drop (kn + 1)).length = en - 1 - (kn + 1) := by
      rw [List.length_drop, hlen1]
    have he1q : ss[en - 1]? = some ss[en - 1] := List.getElem?_eq_getElem h1
    have hte : ss.take en = ss.take (en - 1) ++ [ss[en - 1]] := by
      have h3 : en - 1 + 1 = en := by omega
      conv_lhs => rw [← h3]
      rw [List.take_succ, he1q]; rfl
    have hd2 : ss.drop (kn + 1) =
        (ss.take (en - 1)).drop (kn + 1) ++ ss[en - 1] :: ss.drop en := by
      conv_lhs => rw [← List.take_append_drop (en - 1) ss]
      rw [List.drop_append_eq_append_drop, hlen1]
      have h4 : kn + 1 - (en - 1) = 0 := by omega
      rw [h4, List.drop_zero, List.drop_eq_getElem_cons h1]
      have h3 : en - 1 + 1 = en := by omega
      rw [h3]
    have hdec : ss = ss.take kn ++ ss[kn] ::
        ((ss.take (en - 1)).drop (kn + 1) ++ ss[en - 1] :: ss.drop en) := by
      conv_lhs => rw [← List.take_append_drop kn ss]
      rw [List.drop_eq_getElem_cons hkn, hd2]
    have hrun : insertLoop imp rt (kn : Int) (en : Int)
        (ss.take kn ++ ss[kn] ::
          ((ss.take (en - 1)).drop (kn + 1) ++ ss[en - 1] :: ss.drop en))
        0 ⟨[], false, false⟩ =
        ⟨ss.take (kn + 1) ++ [imp] ++ (ss.take en).drop (kn + 1) ++ [rt] ++
          ss.drop en, true, true⟩ := by
      rw [insertLoop_append]
      rw [insertLoop_pass imp rt (kn : Int) (en : Int) (ss.take kn) 0 ⟨[], false, false⟩
        (by right; right; simp only [hlt]; push_cast; omega)
        (by right; right; simp only [hlt]; push_cast; omega)]
      rw [insertLoop_cons]
      rw [insertStep_imp_only imp rt (kn : Int) (en : Int) _ _ _
        (by simp only [hlt]; push_cast; omega)
        (by rfl)
        (by right; left; simp only [hlt]; push_cast; omega)]
      rw [insertLoop_append]
      rw [insertLoop_pass imp rt (kn : Int) (en : Int)
        ((ss.take (en - 1)).drop (kn + 1)) _ _
        (by left; rfl)
        (by right; right; simp only [hlt, hmlen]; push_cast; omega)]
      rw [insertLoop_cons]
      rw [insertStep_rt_only imp rt (kn : Int) (en : Int) _ _ _
        (by push_cast; omega)
        (by simp only [hlt, hmlen]; push_cast; omega)
        (by rfl)
        (by right; rfl)]
      rw [insertLoop_pass imp rt (kn : Int) (en : Int) (ss.drop en) _ _
        (by left; rfl) (by left; rfl)]
      rw [hte, List.drop_append_of_le_length (by rw [hlen1]; omega), htk]
      simp only [List.append_assoc, List.singleton_append, List.cons_append,
        List.nil_append]
    rw [← hdec] at hrun
    exact hrun

/-- Full run of the insertion loop when the pre-export position comes
before the last import (`1 ≤ en ≤ kn`): the route lands right before index
`en`, the import right after index `kn`, both flags end true. -/
theorem insertLoop_run_rt_before_imp (imp rt : Stmt) (ss : List Stmt) (kn en : Nat)
    (hen1 : 1 ≤ en) (henk : en ≤ kn) (hkn : kn < ss.length) :
    insertLoop imp rt (kn : Int) (en : Int) ss 0 ⟨[], false, false⟩ =
      ⟨ss.take en ++ [rt] ++ (ss.take (kn + 1)).drop en ++ [imp] ++
        ss.drop (kn + 1), true, true⟩ := by
  have h1 : en - 1 < ss.length := by omega
  have hlen0 : (ss.take (en - 1)).length = en - 1 := List.length_take_of_le (by omega)
  have hlenk : (ss.take kn).length = kn := List.length_take_of_le (le_of_lt hkn)
  have hmlen : ((ss.take kn).drop en).length = kn - en := by
    rw [List.length_drop, hlenk]
  have he1q : ss[en - 1]? = some ss[en - 1] := List.getElem?_eq_getElem h1
  have hknq : ss[kn]? = some ss[kn] := List.getElem?_eq_getElem hkn
  have hte : ss.take en = ss.take (en - 1) ++ [ss[en - 1]] := by
    have h3 : en - 1 + 1 = en := by omega
    conv_lhs => rw [← h3]
    rw [List.take_succ, he1q]; rfl
  have htk : ss.take (kn + 1) = ss.take kn ++ [ss[kn]] := by
    rw [List.take_succ, hknq]; rfl
  have hd2 : ss.drop en = (ss.take kn).drop en ++ ss[kn] :: ss.drop (kn + 1) := by
    conv_lhs => rw [← List.take_append_drop kn ss]
    rw [List.drop_append_eq_append_drop, hlenk]
    have h4 : en - kn = 0 := by omega
    rw [h4, List.drop_zero, List.drop_eq_getElem_cons hkn]
  have hdec : ss = ss.take (en - 1) ++ ss[en - 1] ::
      ((ss.take kn).drop en ++ ss[kn] :: ss.drop (kn + 1)) := by
    conv_lhs => rw [← List.take_append_drop (en - 1) ss]
    rw [List.drop_eq_getElem_cons h1]
    have h3 : en - 1 + 1 = en := by omega
    rw [h3, hd2]
  have hrun : insertLoop imp rt (kn : Int) (en : Int)
      (ss.take (en - 1) ++ ss[en - 1] ::
        ((ss.take kn).drop en ++ ss[kn] :: ss.drop (kn + 1)))
      0 ⟨[], false, false⟩ =
      ⟨ss.take en ++ [rt] ++ (ss.take (kn + 1)).drop en ++ [imp] ++
        ss.drop (kn + 1), true, true⟩ := by
    rw [insertLoop_append]
    rw [insertLoop_pass imp rt (kn : Int) (en : Int) (ss.take (en - 1)) 0
      ⟨[], false, false⟩
      (by right; right; simp only [hlen0]; push_cast; omega)
      (by right; right; simp only [hlen0]; push_cast; omega)]
    rw [insertLoop_cons]
    rw [insertStep_rt_only imp rt (kn : Int) (en : Int) _ _ _
      (by push_cast; omega)
      (by simp only [hlen0]; push_cast; omega)
      (by rfl)
      (by left; simp only [hlen0]; push_cast; omega)]
    rw [insertLoop_append]
    rw [insertLoop_pass imp rt (kn : Int) (en : Int) ((ss.take kn).drop en) _ _
      (by right; right; simp only [hlen0, hmlen]; push_cast; omega)
      (by left; rfl)]
    rw [insertLoop_cons]
    rw [insertStep_imp_only imp rt (kn : Int) (en : Int) _ _ _
      (by simp only [hlen0, hmlen]; push_cast; omega)
      (by rfl)
      (by right; right; rfl)]
    rw [insertLoop_pass imp rt (kn : Int) (en : Int) (ss.drop (kn + 1)) _ _
      (by left; rfl) (by left; rfl)]
    rw [hte, htk, List.drop_append_of_le_length (by rw [hlenk]; exact henk)]
    simp only [List.append_assoc, List.singleton_append, List.cons_append,
      List.nil_append]
  rw [← hdec] at hrun
  exact hrun

/-- Full run of the insertion loop when there is a last import (index `kn`)
but the export scan returned `0` or `-1`: only the import is inserted. -/
theorem insertLoop_run_imp_only (imp rt : Stmt) (ss : List Stmt) (kn : Nat)
    (e : Int) (he : e ≤ 0) (hkn : kn < ss.length) :
    insertLoop imp rt (kn : Int) e ss 0 ⟨[], false, false⟩ =
      ⟨ss.take (kn + 1) ++ [imp] ++ ss.drop (kn + 1), true, false⟩ := by
  have hlenk : (ss.take kn).length = kn := List.length_take_of_le (le_of_lt hkn)
  have hknq : ss[kn]? = some ss[kn] := List.getElem?_eq_getElem hkn
  have htk : ss.take (kn + 1) = ss.take kn ++ [ss[kn]] := by
    rw [List.take_succ, hknq]; rfl
  have hdec : ss = ss.take kn ++ ss[kn] :: ss.drop (kn + 1) := by
    conv_lhs => rw [← List.take_append_drop kn ss]
    rw [List.drop_eq_getElem_cons hkn]
  have hrun : insertLoop imp rt (kn : Int) e
      (ss.take kn ++ ss[kn] :: ss.drop (kn + 1)) 0 ⟨[], false, false⟩ =
      ⟨ss.take (kn + 1) ++ [imp] ++ ss.drop (kn + 1), true, false⟩ := by
    rw [insertLoop_append]
    rw [insertLoop_pass imp rt (kn : Int) e (ss.take kn) 0 ⟨[], false, false⟩
      (by right; right; simp only [hlenk]; push_cast; omega)
      (by right; left; push_cast; omega)]
    rw [insertLoop_cons]
    rw [insertStep_imp_only imp rt (kn : Int) e _ _ _
      (by simp only [hlenk]; push_cast; omega)
      (by rfl)
      (by right; left; simp only [hlenk]; push_cast; omega)]
    rw [insertLoop_pass imp rt (kn : Int) e (ss.drop (kn + 1)) _ _
      (by left; rfl) (by right; left; push_cast; omega)]
    rw [htk]
    simp only [List.append_assoc, List.singleton_append, List.cons_append,
      List.nil_append]
  rw [← hdec] at hrun
  exact hrun

/-- Full run of the insertion loop when there is no import
(`lastImportIndex = -1`) but the export scan returned `en ≥ 1`: only the
route is inserted, right before index `en`. -/
theorem insertLoop_run_rt_only (imp rt : Stmt) (ss : List Stmt) (k : Int)
    (hk : k < 0) (en : Nat) (hen1 : 1 ≤ en) (hen : en ≤ ss.length) :
    insertLoop imp rt k (en : Int) ss 0 ⟨[], false, false⟩ =
      ⟨ss.take en ++ [rt] ++ ss.drop en, false, true⟩ := by
  have h1 : en - 1 < ss.length := by omega
  have hlen0 : (ss.take (en - 1)).length = en - 1 := List.length_take_of_le (by omega)
  have he1q : ss[en - 1]? = some ss[en - 1] := List.getElem?_eq_getElem h1
  have hte : ss.take en = ss.take (en - 1) ++ [ss[en - 1]] := by
    have h3 : en - 1 + 1 = en := by omega
    conv_lhs => rw [← h3]
    rw [List.take_succ, he1q]; rfl
  have hdec : ss = ss.take (en - 1) ++ ss[en - 1] :: ss.drop en := by
    conv_lhs => rw [← List.take_append_drop (en - 1) ss]
    rw [List.drop_eq_getElem_cons h1]
    have h3 : en - 1 + 1 = en := by omega
    rw [h3]
  have hrun : insertLoop imp rt k (en : Int)
      (ss.take (en - 1) ++ ss[en - 1] :: ss.drop en) 0 ⟨[], false, false⟩ =
      ⟨ss.take en ++ [rt] ++ ss.drop en, false, true⟩ := by
    rw [insertLoop_append]
    rw [insertLoop_pass imp rt k (en : Int) (ss.take (en - 1)) 0 ⟨[], false, false⟩
      (by right; left; omega)
      (by right; right; simp only [hlen0]; push_cast; omega)]
    rw [insertLoop_cons]
    rw [insertStep_rt_only imp rt k (en : Int) _ _ _
      (by push_cast; omega)
      (by simp only [hlen0]; push_cast; omega)
      (by rfl)
      (by left; simp only [hlen0]; push_cast; omega)]
    rw [insertLoop_pass imp rt k (en : Int) (ss.drop en) _ _
      (by right; left; omega) (by left; rfl)]
    rw [hte]
    simp only [List.append_assoc, List.singleton_append, List.cons_append,
      List.nil_append]
  rw [← hdec] at hrun
  exact hrun

/-- Full run of the insertion loop when neither index can be hit
(no import, and export scan returned `0` or `-1`): nothing is inserted. -/
theorem insertLoop_run_none (imp rt : Stmt) (ss : List Stmt) (k e : Int)
    (hk : k < 0) (he : e ≤ 0) :
    insertLoop imp rt k e ss 0 ⟨[], false, false⟩ = ⟨ss, false, false⟩ := by
  rw [insertLoop_pass imp rt k e ss 0 ⟨[], false, false⟩
    (by right; left; omega) (by right; left; omega)]
  simp

/-! ### Characterizing the two scans -/

/-- The last-import scan returns its accumulator or the position of
an import declaration inside the scanned segment. -/
theorem lastImportIndexAux_spec (ss : List Stmt) :
    ∀ (i : Nat) (acc : Int),
      lastImportIndexAux ss i acc = acc ∨
      ∃ j : Nat, j < ss.length ∧ lastImportIndexAux ss i acc = ((i + j : Nat) : Int) ∧
        ∃ s, ss[j]? = some s ∧ isImportDeclaration s = true := by
  induction ss with
  | nil => intro i acc; left; rfl
  | cons s rest ih =>
      intro i acc
      by_cases hs : isImportDeclaration s = true
      · rcases ih (i + 1) (i : Int) with h | ⟨j, hj, hr, t, ht, hti⟩
        · right
          refine ⟨0, by simp, ?_, s, by simp, hs⟩
          simp only [lastImportIndexAux]
          rw [if_pos hs, h]
          simp
        · right
          refine ⟨j + 1, by simp; omega, ?_, t, by simpa using ht, hti⟩
          simp only [lastImportIndexAux]
          rw [if_pos hs, hr]
          push_cast
          omega
      · rcases ih (i + 1) acc with h | ⟨j, hj, hr, t, ht, hti⟩
        · left
          simp only [lastImportIndexAux]
          rw [if_neg hs]
          exact h
        · right
          refine ⟨j + 1, by simp; omega, ?_, t, by simpa using ht, hti⟩
          simp only [lastImportIndexAux]
          rw [if_neg hs, hr]
          push_cast
          omega

/-- `lastImportIndex` is `-1` or the position of an import declaration. -/
theorem lastImportIndex_cases (ss : List Stmt) :
    lastImportIndex ss = -1 ∨
    ∃ j : Nat, j < ss.length ∧ lastImportIndex ss = (j : Int) ∧
      ∃ s, ss[j]? = some s ∧ isImportDeclaration s = true := by
  rcases lastImportIndexAux_spec ss 0 (-1) with h | ⟨j, hj, hr, t, ht, hti⟩
  · left; exact h
  · right
    refine ⟨j, hj, ?_, t, ht, hti⟩
    rw [lastImportIndex, hr]
    simp

/-- With no import declaration in the file, the scan returns `-1`. -/
theorem lastImportIndex_of_no_import (ss : List Stmt)
    (h : ∀ s ∈ ss, isImportDeclaration s = false) : lastImportIndex ss = -1 := by
  have aux : ∀ (l : List Stmt), (∀ s ∈ l, isImportDeclaration s = false) →
      ∀ (i : Nat) (acc : Int), lastImportIndexAux l i acc = acc := by
    intro l
    induction l with
    | nil => intro _ i acc; rfl
    | cons s rest ih =>
        intro hl i acc
        have hs : ¬ (isImportDeclaration s = true) := by simp [hl s (by simp)]
        simp only [lastImportIndexAux]
        rw [if_neg hs]
        exact ih (fun t htm => hl t (by simp [htm])) (i + 1) acc
  exact aux ss h 0 (-1)

/-- The export scan returns `-1` or the position of an export-default
form inside the scanned segment. -/
theorem exportDefaultIndexAux_spec (ss : List Stmt) :
    ∀ (i : Nat),
      exportDefaultIndexAux ss i = -1 ∨
      ∃ j : Nat, j < ss.length ∧ exportDefaultIndexAux ss i = ((i + j : Nat) : Int) ∧
        ∃ s, ss[j]? = some s ∧ isExportDefaultForm s = true := by
  induction ss with
  | nil => intro i; left; rfl
  | cons s rest ih =>
      intro i
      by_cases hs : isExportDefaultForm s = true
      · right
        refine ⟨0, by simp, ?_, s, by simp, hs⟩
        simp only [exportDefaultIndexAux]
        rw [if_pos hs]
        simp
      · rcases ih (i + 1) with h | ⟨j, hj, hr, t, ht, hti⟩
        · left
          simp only [exportDefaultIndexAux]
          rw [if_neg hs]
          exact h
        · right
          refine ⟨j + 1, by simp; omega, ?_, t, by simpa using ht, hti⟩
          simp only [exportDefaultIndexAux]
          rw [if_neg hs, hr]
          push_cast
          omega

/-- `exportDefaultIndex` is `-1` or the position of an export-default form. -/
theorem exportDefaultIndex_cases (ss : List Stmt) :
    exportDefaultIndex ss = -1 ∨
    ∃ j : Nat, j < ss.length ∧ exportDefaultIndex ss = (j : Int) ∧
      ∃ s, ss[j]? = some s ∧ isExportDefaultForm s = true := by
  rcases exportDefaultIndexAux_spec ss 0 with h | ⟨j, hj, hr, t, ht, hti⟩
  · left; exact h
  · right
    refine ⟨j, hj, ?_, t, ht, hti⟩
    rw [exportDefaultIndex, hr]
    simp

/-- With no export-default form in the file, the scan returns `-1`. -/
theorem exportDefaultIndex_of_no_export (ss : List Stmt)
    (h : ∀ s ∈ ss, isExportDefaultForm s = false) : exportDefaultIndex ss = -1 := by
  have aux : ∀ (l : List Stmt), (∀ s ∈ l, isExportDefaultForm s = false) →
      ∀ (i : Nat), exportDefaultIndexAux l i = -1 := by
    intro l
    induction l with
    | nil => intro _ i; rfl
    | cons s rest ih =>
        intro hl i
        have hs : ¬ (isExportDefaultForm s = true) := by simp [hl s (by simp)]
        simp only [exportDefaultIndexAux]
        rw [if_neg hs]
        exact ih (fun t htm => hl t (by simp [htm])) (i + 1)
  exact aux ss h 0

/-- An import declaration is never an export-default form. -/
theorem import_not_exportDefault (s : Stmt) (h : isImportDeclaration s = true) :
    isExportDefaultForm s = false := by
  cases s <;> simp_all [isImportDeclaration, isExportDefaultForm,
    isExportAssignment, isExportDeclWithoutClause]

/-! ### Closed forms of `insertImportAndRoute` -/

/-- Recomposition of a list from the three segments used by the closed
forms. -/
theorem take_drop_take_recomp {α : Type} (l : List α) (a b : Nat) (hab : a ≤ b) :
    l.take a ++ ((l.take b).drop a ++ l.drop b) = l := by
  have h1 : (l.take b).take a = l.take a := by
    rw [List.take_take, Nat.min_eq_left hab]
  conv_rhs => rw [← List.take_append_drop b l, ← List.take_append_drop a (l.take b), h1]
  simp

/-- Inserting one element into each of two seams of a concatenation
yields a supersequence. -/
theorem sublist_insert_two {α : Type} (A B C : List α) (x y : α) :
    (A ++ B ++ C).Sublist (A ++ [x] ++ B ++ [y] ++ C) := by
  refine List.Sublist.append ?_ (List.Sublist.refl C)
  refine List.Sublist.trans ?_ (List.sublist_append_left (A ++ [x] ++ B) [y])
  exact List.Sublist.append (List.sublist_append_left A [x]) (List.Sublist.refl B)

/-- Closed form of `insertImportAndRoute` when the last import precedes the
first export-default form. -/
theorem insertImportAndRoute_imp_before_rt (ss : List Stmt) (imp rt : Stmt)
    (kn en : Nat) (hk : lastImportIndex ss = (kn : Int))
    (he : exportDefaultIndex ss = (en : Int)) (hke : kn < en) (hen : en ≤ ss.length) :
    insertImportAndRoute ss imp rt =
      ss.take (kn + 1) ++ [imp] ++ (ss.take en).drop (kn + 1) ++ [rt] ++
        ss.drop en := by
  simp only [insertImportAndRoute]
  rw [hk, he, insertLoop_run_imp_before_rt imp rt ss kn en hke hen]
  simp

/-- Closed form of `insertImportAndRoute` when the first export-default
form precedes the last import. -/
theorem insertImportAndRoute_rt_before_imp (ss : List Stmt) (imp rt : Stmt)
    (kn en : Nat) (hk : lastImportIndex ss = (kn : Int))
    (he : exportDefaultIndex ss = (en : Int)) (hen1 : 1 ≤ en) (henk : en ≤ kn)
    (hkn : kn < ss.length) :
    insertImportAndRoute ss imp rt =
      ss.take en ++ [rt] ++ (ss.take (kn + 1)).drop en ++ [imp] ++
        ss.drop (kn + 1) := by
  simp only [insertImportAndRoute]
  rw [hk, he, insertLoop_run_rt_before_imp imp rt ss kn en hen1 henk hkn]
  simp

/-- Closed form of `insertImportAndRoute` when there is an import but the
export scan returned `0` or `-1`: the route falls back to the end. -/
theorem insertImportAndRoute_imp_only (ss : List Stmt) (imp rt : Stmt)
    (kn : Nat) (hk : lastImportIndex ss = (kn : Int))
    (he : exportDefaultIndex ss ≤ 0) (hkn : kn < ss.length) :
    insertImportAndRoute ss imp rt =
      ss.take (kn + 1) ++ [imp] ++ ss.drop (kn + 1) ++ [rt] := by
  simp only [insertImportAndRoute]
  rw [hk, insertLoop_run_imp_only imp rt ss kn (exportDefaultIndex ss) he hkn]
  simp

/-- Closed form of `insertImportAndRoute` when there is no import but the
export scan returned `en ≥ 1`: the import falls back to the front. -/
theorem insertImportAndRoute_rt_only (ss : List Stmt) (imp rt : Stmt)
    (en : Nat) (hk : lastImportIndex ss = -1)
    (he : exportDefaultIndex ss = (en : Int)) (hen1 : 1 ≤ en) (hen : en ≤ ss.length) :
    insertImportAndRoute ss imp rt =
      imp :: (ss.take en ++ [rt] ++ ss.drop en) := by
  simp only [insertImportAndRoute]
  rw [hk, he, insertLoop_run_rt_only imp rt ss (-1) (by omega) en hen1 hen]
  simp

/-- Closed form of `insertImportAndRoute` when there is no import and the
export scan returned `0` or `-1`: both fallbacks fire. -/
theorem insertImportAndRoute_none (ss : List Stmt) (imp rt : Stmt)
    (hk : lastImportIndex ss = -1) (he : exportDefaultIndex ss ≤ 0) :
    insertImportAndRoute ss imp rt = imp :: (ss ++ [rt]) := by
  simp only [insertImportAndRoute]
  rw [hk, insertLoop_run_none imp rt ss (-1) (exportDefaultIndex ss) (by omega) he]
  simp

/-- If both an import (at `kn`) and an export-default form (at `en`) are
located by the scans, the two positions differ. -/
theorem scan_positions_ne (ss : List Stmt) (kn en : Nat)
    (sk se : Stmt) (hskq : ss[kn]? = some sk) (hski : isImportDeclaration sk = true)
    (hseq : ss[en]? = some se) (hsee : isExportDefaultForm se = true) :
    kn ≠ en := by
  intro heq
  rw [heq] at hskq
  have hse : sk = se := Option.some.inj (hskq.symm.trans hseq)
  have hcontra := import_not_exportDefault sk hski
  simp [hse, hsee] at hcontra

/-- `insertImportAndRoute` adds exactly one copy of the new import and one
copy of the new registration, for any counting predicate. -/
theorem countP_insertImportAndRoute (ss : List Stmt) (imp rt : Stmt)
    (p : Stmt → Bool) :
    (insertImportAndRoute ss imp rt).countP p =
      ss.countP p + (if p imp then 1 else 0) + (if p rt then 1 else 0) := by
  have hsplit : ∀ n : Nat,
      List.countP p (ss.take n) + List.countP p (ss.drop n) = List.countP p ss := by
    intro n
    conv_rhs => rw [← List.take_append_drop n ss]
    rw [List.countP_append]
  rcases lastImportIndex_cases ss with hk | ⟨kn, hkn, hk, sk, hskq, hski⟩
  · rcases exportDefaultIndex_cases ss with he | ⟨en, hen, he, se, hseq, hsee⟩
    · rw [insertImportAndRoute_none ss imp rt hk (by rw [he]; omega)]
      simp [List.countP_cons, List.countP_append]
      ring
    · by_cases hen1 : 1 ≤ en
      · rw [insertImportAndRoute_rt_only ss imp rt en hk he hen1 (le_of_lt hen)]
        simp [List.countP_cons, List.countP_append]
        rw [← hsplit en]
        ring
      · rw [insertImportAndRoute_none ss imp rt hk (by rw [he]; omega)]
        simp [List.countP_cons, List.countP_append]
        ring
  · rcases exportDefaultIndex_cases ss with he | ⟨en, hen, he, se, hseq, hsee⟩
    · rw [insertImportAndRoute_imp_only ss imp rt kn hk (by rw [he]; omega) hkn]
      simp [List.countP_cons, List.countP_append]
      rw [← hsplit (kn + 1)]
      ring
    · rcases Nat.lt_trichotomy kn en with hlt | heq | hgt
      · rw [insertImportAndRoute_imp_before_rt ss imp rt kn en hk he hlt (le_of_lt hen)]
        conv_rhs => rw [← take_drop_take_recomp ss (kn + 1) en (by omega)]
        simp [List.countP_cons, List.countP_append]
        ring
      · exact absurd heq (scan_positions_ne ss kn en sk se hskq hski hseq hsee)
      · by_cases hen1 : 1 ≤ en
        · rw [insertImportAndRoute_rt_before_imp ss imp rt kn en hk he hen1
            (by omega) hkn]
          conv_rhs => rw [← take_drop_take_recomp ss en (kn + 1) (by omega)]
          simp [List.countP_cons, List.countP_append]
          ring
        · rw [insertImportAndRoute_imp_only ss imp rt kn hk (by rw [he]; omega) hkn]
          simp [List.countP_cons, List.countP_append]
          rw [← hsplit (kn + 1)]
          ring

/-- Every element of the output of `insertImportAndRoute` is an original
statement, the new import, or the new registration. -/
theorem mem_insertImportAndRoute (ss : List Stmt) (imp rt s : Stmt)
    (h : s ∈ insertImportAndRoute ss imp rt) : s ∈ ss ∨ s = imp ∨ s = rt := by
  rcases lastImportIndex_cases ss with hk | ⟨kn, hkn, hk, sk, hskq, hski⟩
  · rcases exportDefaultIndex_cases ss with he | ⟨en, hen, he, se, hseq, hsee⟩
    · rw [insertImportAndRoute_none ss imp rt hk (by rw [he]; omega)] at h
      simp only [List.mem_cons, List.mem_append, List.mem_singleton,
        List.not_mem_nil, or_false, false_or] at h
      tauto
    · by_cases hen1 : 1 ≤ en
      · rw [insertImportAndRoute_rt_only ss imp rt en hk he hen1 (le_of_lt hen)] at h
        simp only [List.mem_cons, List.mem_append, List.mem_singleton,
        List.not_mem_nil, or_false, false_or] at h
        rcases h with h | (h | h) | h
        · right; left; exact h
        · left; exact List.take_subset en ss h
        · right; right; exact h
        · left; exact List.drop_subset en ss h
      · rw [insertImportAndRoute_none ss imp rt hk (by rw [he]; omega)] at h
        simp only [List.mem_cons, List.mem_append, List.mem_singleton,
        List.not_mem_nil, or_false, false_or] at h
        tauto
  · rcases exportDefaultIndex_cases ss with he | ⟨en, hen, he, se, hseq, hsee⟩
    · rw [insertImportAndRoute_imp_only ss imp rt kn hk (by rw [he]; omega) hkn] at h
      simp only [List.mem_append, List.mem_singleton, List.mem_cons,
        List.not_mem_nil, or_false, false_or] at h
      rcases h with ((h | h) | h) | h
      · left; exact List.take_subset (kn + 1) ss h
      · right; left; exact h
      · left; exact List.drop_subset (kn + 1) ss h
      · right; right; exact h
    · rcases Nat.lt_trichotomy kn en with hlt | heq | hgt
      · rw [insertImportAndRoute_imp_before_rt ss imp rt kn en hk he hlt
          (le_of_lt hen)] at h
        simp only [List.mem_append, List.mem_singleton, List.mem_cons,
        List.not_mem_nil, or_false, false_or] at h
        rcases h with (((h | h) | h) | h) | h
        · left; exact List.take_subset (kn + 1) ss h
        · right; left; exact h
        · left; exact List.take_subset en ss (List.drop_subset (kn + 1) _ h)
        · right; right; exact h
        · left; exact List.drop_subset en ss h
      · exact absurd heq (scan_positions_ne ss kn en sk se hskq hski hseq hsee)
      · by_cases hen1 : 1 ≤ en
        · rw [insertImportAndRoute_rt_before_imp ss imp rt kn en hk he hen1
            (by omega) hkn] at h
          simp only [List.mem_append, List.mem_singleton, List.mem_cons,
        List.not_mem_nil, or_false, false_or] at h
          rcases h with (((h | h) | h) | h) | h
          · left; exact List.take_subset en ss h
          · right; right; exact h
          · left; exact List.take_subset (kn + 1) ss (List.drop_subset en _ h)
          · right; left; exact h
          · left; exact List.drop_subset (kn + 1) ss h
        · rw [insertImportAndRoute_imp_only ss imp rt kn hk (by rw [he]; omega)
            hkn] at h
          simp only [List.mem_append, List.mem_singleton, List.mem_cons,
        List.not_mem_nil, or_false, false_or] at h
          rcases h with ((h | h) | h) | h
          · left; exact List.take_subset (kn + 1) ss h
          · right; left; exact h
          · left; exact List.drop_subset (kn + 1) ss h
          · right; right; exact h

/-- The original statement sequence is a subsequence of the output of
`insertImportAndRoute`: relative order of all original statements is kept. -/
theorem sublist_insertImportAndRoute (ss : List Stmt) (imp rt : Stmt) :
    ss.Sublist (insertImportAndRoute ss imp rt) := by
  rcases lastImportIndex_cases ss with hk | ⟨kn, hkn, hk, sk, hskq, hski⟩
  · rcases exportDefaultIndex_cases ss with he | ⟨en, hen, he, se, hseq, hsee⟩
    · rw [insertImportAndRoute_none ss imp rt hk (by rw [he]; omega)]
      simpa using sublist_insert_two [] ss [] imp rt
    · by_cases hen1 : 1 ≤ en
      · rw [insertImportAndRoute_rt_only ss imp rt en hk he hen1 (le_of_lt hen)]
        have h2 := sublist_insert_two [] (ss.take en) (ss.drop en) imp rt
        simpa using h2
      · rw [insertImportAndRoute_none ss imp rt hk (by rw [he]; omega)]
        simpa using sublist_insert_two [] ss [] imp rt
  · rcases exportDefaultIndex_cases ss with he | ⟨en, hen, he, se, hseq, hsee⟩
    · rw [insertImportAndRoute_imp_only ss imp rt kn hk (by rw [he]; omega) hkn]
      have h2 := sublist_insert_two (ss.take (kn + 1)) (ss.drop (kn + 1)) [] imp rt
      simpa using h2
    · rcases Nat.lt_trichotomy kn en with hlt | heq | hgt
      · rw [insertImportAndRoute_imp_before_rt ss imp rt kn en hk he hlt
          (le_of_lt hen)]
        have h2 := sublist_insert_two (ss.take (kn + 1))
          ((ss.take en).drop (kn + 1)) (ss.drop en) imp rt
        have h3 : ss = ss.take (kn + 1) ++ (ss.take en).drop (kn + 1) ++ ss.drop en := by
          rw [List.append_assoc]
          exact (take_drop_take_recomp ss (kn + 1) en (by omega)).symm
        conv_lhs => rw [h3]
        exact h2
      · exact absurd heq (scan_positions_ne ss kn en sk se hskq hski hseq hsee)
      · by_cases hen1 : 1 ≤ en
        · rw [insertImportAndRoute_rt_before_imp ss imp rt kn en hk he hen1
            (by omega) hkn]
          have h2 := sublist_insert_two (ss.take en)
            ((ss.take (kn + 1)).drop en) (ss.drop (kn + 1)) rt imp
          have h3 : ss = ss.take en ++ (ss.take (kn + 1)).drop en ++ ss.drop (kn + 1) := by
            rw [List.append_assoc]
            exact (take_drop_take_recomp ss en (kn + 1) (by omega)).symm
          conv_lhs => rw [h3]
          exact h2
        · rw [insertImportAndRoute_imp_only ss imp rt kn hk (by rw [he]; omega)
            hkn]
          have h2 := sublist_insert_two (ss.take (kn + 1)) (ss.drop (kn + 1)) []
            imp rt
          simpa using h2

/-! ### Pointwise facts about the query and removal predicates -/

/-- The scan body of `routeExists` agrees with the registration
criterion of the specification. -/
theorem routeExists_eq_any (ss : List Stmt) (p : String) :
    routeExists ss p = ss.any (isUseRegistrationWithPath p) := by
  simp only [routeExists]
  congr 1
  funext s
  cases s with
  | exprStmt e =>
      cases e with
      | call c args =>
          cases c with
          | propAccess r n =>
              cases args with
              | nil => simp [isUseRegistrationWithPath]
              | cons a rest => cases a <;> simp [isUseRegistrationWithPath]
          | otherCallee t => rfl
      | otherExpr t => rfl
  | importDecl n m => rfl
  | exportAssignment t => rfl
  | exportDecl c t => rfl
  | otherStmt t => rfl

/-- The removal test of `removeRoute` agrees with the removal
criterion of the specification. -/
theorem shouldRemove_eq_spec (b : String) (s : Stmt) :
    shouldRemove b s = specRemovalMatch b s := by
  cases s with
  | importDecl n m => cases n <;> simp [shouldRemove, specRemovalMatch]
  | exprStmt e =>
      cases e with
      | call c args => cases c <;> simp [shouldRemove, specRemovalMatch]
      | otherExpr t => simp [shouldRemove, specRemovalMatch]
  | exportAssignment t => simp [shouldRemove, specRemovalMatch]
  | exportDecl c t => simp [shouldRemove, specRemovalMatch]
  | otherStmt t => simp [shouldRemove, specRemovalMatch]

/-- Any method call on a property access whose second argument is the
identifier `b` satisfies the removal test, whatever the method is called. -/
theorem methodCall_shouldRemove (b : String) (s : Stmt)
    (h : isMethodCallWithSecondIdent b s = true) : shouldRemove b s = true := by
  cases s with
  | exprStmt e =>
      cases e with
      | call c args =>
          cases c with
          | propAccess r n => simpa [isMethodCallWithSecondIdent, shouldRemove] using h
          | otherCallee t => simp [isMethodCallWithSecondIdent] at h
      | otherExpr t => simp [isMethodCallWithSecondIdent] at h
  | importDecl n m => simp [isMethodCallWithSecondIdent] at h
  | exportAssignment t => simp [isMethodCallWithSecondIdent] at h
  | exportDecl c t => simp [isMethodCallWithSecondIdent] at h
  | otherStmt t => simp [isMethodCallWithSecondIdent] at h

/-- An import declaration bound to `b` satisfies the removal test. -/
theorem importNamed_shouldRemove (b : String) (s : Stmt)
    (h : (match s with
          | Stmt.importDecl (some n) _ => decide (n = b)
          | _ => false) = true) : shouldRemove b s = true := by
  cases s with
  | importDecl n m =>
      cases n with
      | none => simp at h
      | some nm => simpa [shouldRemove] using h
  | exprStmt e => simp at h
  | exportAssignment t => simp at h
  | exportDecl c t => simp at h
  | otherStmt t => simp at h

/-- After `removeRoute l b` no import declaration bound to `b` remains. -/
theorem importExists_removeRoute (l : List Stmt) (b : String) :
    importExists (removeRoute l b) b = false := by
  rw [importExists, List.any_eq_false]
  intro s hs
  rcases List.mem_filter.mp hs with ⟨_, hkeep⟩
  intro habs
  have : shouldRemove b s = true := importNamed_shouldRemove b s habs
  simp [this] at hkeep

/-! ### The claims -/

/-- **C1.** For every source file and every `RouteUpdateRequest` such that
no import with the bound name of the request and no matching registration
already exist in the file, after `addRoute` the re-parsed file contains
exactly one more `ImportStatement` binding the router name of the request
to its module path, and exactly one more registration of the form
`router.use(request.routePath, request.routerName)`, than before the call. -/
theorem addRoute_adds_exactly_one_of_each (ss : List Stmt) (u : RouteUpdate)
    (h1 : ss.countP (isMatchingImport u) = 0)
    (h2 : ss.countP (isMatchingRegistration u) = 0) :
    (addRoute ss u).countP (isMatchingImport u) = ss.countP (isMatchingImport u) + 1 ∧
    (addRoute ss u).countP (isMatchingRegistration u) =
      ss.countP (isMatchingRegistration u) + 1 := by
  have hii : isMatchingImport u
      (createImportDeclaration u.routerName u.importPath) = true := by
    simp [isMatchingImport]
  have hir : isMatchingImport u
      (createRouteRegistration u.routerName u.routePath) = false := by
    simp [isMatchingImport, createImportDeclaration, createRouteRegistration]
  have hri : isMatchingRegistration u
      (createImportDeclaration u.routerName u.importPath) = false := by
    simp [isMatchingRegistration, createImportDeclaration, createRouteRegistration]
  have hrr : isMatchingRegistration u
      (createRouteRegistration u.routerName u.routePath) = true := by
    simp [isMatchingRegistration]
  constructor
  · rw [addRoute, countP_insertImportAndRoute, hii, hir]
    simp
  · rw [addRoute, countP_insertImportAndRoute, hri, hrr]
    simp

/-- Witness for C1 at a concrete input. -/
theorem addRoute_adds_exactly_one_of_each_witness :
    sampleOtherOnlyFile.countP (isMatchingImport sampleUpdate) = 0 ∧
    sampleOtherOnlyFile.countP (isMatchingRegistration sampleUpdate) = 0 ∧
    (addRoute sampleOtherOnlyFile sampleUpdate).countP
        (isMatchingImport sampleUpdate) =
      sampleOtherOnlyFile.countP (isMatchingImport sampleUpdate) + 1 ∧
    (addRoute sampleOtherOnlyFile sampleUpdate).countP
        (isMatchingRegistration sampleUpdate) =
      sampleOtherOnlyFile.countP (isMatchingRegistration sampleUpdate) + 1 := by
  refine ⟨by decide, by decide, ?_⟩
  exact addRoute_adds_exactly_one_of_each sampleOtherOnlyFile sampleUpdate
    (by decide) (by decide)

/-- **C4.** `routeExists(filePath, routePath)` returns true iff some
top-level expression statement is a call on a property access named `use`
whose first argument is a string literal equal to `routePath`; and the
query leaves the file unchanged. -/
theorem routeExists_query_spec (ss : List Stmt) (p : String) :
    (routeExists ss p = true ↔ ∃ s ∈ ss, isUseRegistrationWithPath p s = true) ∧
    (routeExistsRun ss p).2 = ss := by
  constructor
  · rw [routeExists_eq_any]
    exact List.any_eq_true
  · rfl

/-- **C5.** `removeRoute(filePath, boundName)` keeps exactly the statements
that are neither an `ImportStatement` bound to `boundName` nor a
route-registration call whose second argument is the identifier
`boundName`. -/
theorem removeRoute_filters_spec (ss : List Stmt) (b : String) :
    removeRoute ss b = ss.filter fun s => !(specRemovalMatch b s) := by
  rw [removeRoute]
  apply List.filter_congr
  intro s _
  rw [shouldRemove_eq_spec]

/-- **C7.** Relative order of retained statements is preserved: the
original sequence is a subsequence of the `addRoute` output, and the
`removeRoute` output is a subsequence of the original sequence. -/
theorem order_preservation (ss : List Stmt) (u : RouteUpdate) (b : String) :
    ss.Sublist (addRoute ss u) ∧ (removeRoute ss b).Sublist ss :=
  ⟨sublist_insertImportAndRoute ss _ _, List.filter_sublist ss⟩

/-- **C8.** The existence queries perform no write: the statement sequence
after `importExists`/`routeExists` is the one before. -/
theorem queries_do_not_mutate (ss : List Stmt) (b p : String) :
    (importExistsRun ss b).2 = ss ∧ (routeExistsRun ss p).2 = ss :=
  ⟨rfl, rfl⟩

/-- **C10.** `removeRoute` removes every top-level expression statement
that is a method call on a property access with an identifier second
argument equal to `boundName`, regardless of the method name or receiver
(`logger.log(x, usersRouter)` and `app.listen(port, usersRouter)` are
removed just like a `router.use` registration); the method name
`use` is never checked during removal. -/
theorem removeRoute_ignores_method_name :
    (∀ (ss : List Stmt) (b : String) (s : Stmt), s ∈ removeRoute ss b →
      isMethodCallWithSecondIdent b s = false) ∧
    (∀ (b recv recv2 m m2 : String) (args : List Arg),
      shouldRemove b (Stmt.exprStmt (Expression.call (Callee.propAccess recv m) args)) =
      shouldRemove b (Stmt.exprStmt (Expression.call (Callee.propAccess recv2 m2) args))) ∧
    removeRoute [loggerCallExample, appListenExample,
      createRouteRegistration "usersRouter" "/users"] "usersRouter" = [] := by
  refine ⟨?_, ?_, by decide⟩
  · intro ss b s hs
    rcases List.mem_filter.mp hs with ⟨_, hkeep⟩
    cases hmc : isMethodCallWithSecondIdent b s
    · rfl
    · have := methodCall_shouldRemove b s hmc
      simp [this] at hkeep
  · intro b recv recv2 m m2 args
    simp [shouldRemove]

/-- Witness for C10 at a concrete input. -/
theorem removeRoute_ignores_method_name_witness :
    Stmt.otherStmt 5 ∈ removeRoute [loggerCallExample, Stmt.otherStmt 5] "usersRouter" ∧
    isMethodCallWithSecondIdent "usersRouter" (Stmt.otherStmt 5) = false := by
  refine ⟨by decide, ?_⟩
  exact removeRoute_ignores_method_name.1
    [loggerCallExample, Stmt.otherStmt 5] "usersRouter" (Stmt.otherStmt 5) (by decide)

/-- Element lookup at the seam of an `pre ++ x :: suf` decomposition. -/
theorem getElem?_append_cons {α : Type} (pre suf : List α) (x : α) (p : Nat)
    (hp : pre.length = p) :
    (pre ++ x :: suf)[p]? = some x ∧ (pre ++ x :: suf)[p + 1]? = suf[0]? := by
  subst hp
  constructor
  · rw [List.getElem?_append_right (le_refl _)]
    simp
  · rw [List.getElem?_append_right (by omega)]
    have h1 : pre.length + 1 - pre.length = 1 := by omega
    rw [h1]
    simp

/-- **C2.** On a file with at least one pre-existing import and a trailing
default export, `addRoute` yields exactly: the prefix through the last
pre-existing import, then the new import, then the middle statements, then
the new registration, then the export — so both new statements sit strictly
after the last pre-existing import and strictly before the export. -/
theorem addRoute_placement (ss : List Stmt) (u : RouteUpdate) (k : Nat)
    (hk : lastImportIndex ss = (k : Int))
    (he : exportDefaultIndex ss = (ss.length : Int) - 1) :
    addRoute ss u =
      ss.take (k + 1) ++ [createImportDeclaration u.routerName u.importPath] ++
      (ss.take (ss.length - 1)).drop (k + 1) ++
      [createRouteRegistration u.routerName u.routePath] ++
      ss.drop (ss.length - 1) := by
  rcases lastImportIndex_cases ss with h | ⟨j, hj, hjv, sk, hskq, hski⟩
  · exfalso
    rw [h] at hk
    omega
  · have hjk : j = k := by
      have := hjv.symm.trans hk
      exact_mod_cast this
    subst hjk
    rcases exportDefaultIndex_cases ss with h | ⟨en, hen, henv, se, hseq, hsee⟩
    · exfalso
      rw [h] at he
      omega
    · have hev : (en : Int) = (ss.length : Int) - 1 := henv.symm.trans he
      have hennat : en = ss.length - 1 := by omega
      have hne : j ≠ en := scan_positions_ne ss j en sk se hskq hski hseq hsee
      have hke : j < en := by omega
      have hgoal := insertImportAndRoute_imp_before_rt ss
        (createImportDeclaration u.routerName u.importPath)
        (createRouteRegistration u.routerName u.routePath)
        j en hk henv hke (le_of_lt hen)
      rw [addRoute, hgoal, hennat]

/-- Witness for C2 at a concrete input. -/
theorem addRoute_placement_witness :
    lastImportIndex sampleTrailingExportFile = (0 : Int) ∧
    exportDefaultIndex sampleTrailingExportFile =
      (sampleTrailingExportFile.length : Int) - 1 ∧
    addRoute sampleTrailingExportFile sampleUpdate =
      sampleTrailingExportFile.take 1 ++
      [createImportDeclaration sampleUpdate.routerName sampleUpdate.importPath] ++
      (sampleTrailingExportFile.take (sampleTrailingExportFile.length - 1)).drop 1 ++
      [createRouteRegistration sampleUpdate.routerName sampleUpdate.routePath] ++
      sampleTrailingExportFile.drop (sampleTrailingExportFile.length - 1) := by
  refine ⟨by decide, by decide, ?_⟩
  exact addRoute_placement sampleTrailingExportFile sampleUpdate 0
    (by decide) (by decide)

/-- **C3, counterexample.** On the file whose only statement is the default
export, `addRoute` appends the new registration at the end, after the
export: the export is not the last meaningful statement and the
registration is not placed before it, refuting the claim at this input. -/
theorem addRoute_export_first_counterexample :
    addRoute sampleExportFirstFile sampleUpdate =
      [createImportDeclaration "usersRouter" "./users/users.routes.js",
       Stmt.exportAssignment 0,
       createRouteRegistration "usersRouter" "/users"] ∧
    isExportDefaultForm ((addRoute sampleExportFirstFile sampleUpdate).getD 1 default) = true ∧
    (addRoute sampleExportFirstFile sampleUpdate).getD 2 default =
      createRouteRegistration "usersRouter" "/users" := by
  refine ⟨by decide, by decide, by decide⟩

/-- **C3, amended.** When the file contains an export-default form, the
newly inserted registration immediately precedes the first such export
statement whenever that statement is not the first statement of the file;
when the export-default form is the first statement, the registration is
instead appended at the very end of the file (after the export). -/
theorem addRoute_route_before_export_amended (ss : List Stmt) (u : RouteUpdate)
    (e : Nat) (he : exportDefaultIndex ss = (e : Int)) :
    (1 ≤ e →
      (addRoute ss u)[e + if lastImportIndex ss ≤ (e : Int) - 1 then 1 else 0]? =
          some (createRouteRegistration u.routerName u.routePath) ∧
      (addRoute ss u)[(e + if lastImportIndex ss ≤ (e : Int) - 1 then 1 else 0) + 1]? =
          ss[e]?) ∧
    (e = 0 → (addRoute ss u).getLast? =
      some (createRouteRegistration u.routerName u.routePath)) := by
  rcases exportDefaultIndex_cases ss with h | ⟨en, hen, henv, se, hseq, hsee⟩
  · exfalso
    rw [h] at he
    omega
  · have hee : en = e := by
      have := henv.symm.trans he
      exact_mod_cast this
    subst hee
    constructor
    · intro hen1
      rcases lastImportIndex_cases ss with hknone | ⟨j, hj, hjv, sk, hskq, hski⟩
      · -- no import: the import is prepended at the front
        have hcond : lastImportIndex ss ≤ (en : Int) - 1 := by
          rw [hknone]; omega
        rw [if_pos hcond]
        have hout := insertImportAndRoute_rt_only ss
          (createImportDeclaration u.routerName u.importPath)
          (createRouteRegistration u.routerName u.routePath)
          en hknone henv hen1 (le_of_lt hen)
        rw [addRoute, hout]
        have hform : (createImportDeclaration u.routerName u.importPath) ::
            (ss.take en ++ [createRouteRegistration u.routerName u.routePath] ++
              ss.drop en) =
            ((createImportDeclaration u.routerName u.importPath) :: ss.take en) ++
              (createRouteRegistration u.routerName u.routePath) :: ss.drop en := by
          simp
        rw [hform]
        have hlen : ((createImportDeclaration u.routerName u.importPath) ::
            ss.take en).length = en + 1 := by
          simp [List.length_take_of_le (le_of_lt hen)]
        have hseam := getElem?_append_cons
          ((createImportDeclaration u.routerName u.importPath) :: ss.take en)
          (ss.drop en) (createRouteRegistration u.routerName u.routePath)
          (en + 1) hlen
        refine ⟨hseam.1, ?_⟩
        rw [hseam.2, List.getElem?_drop]
        simp
      · rcases Nat.lt_trichotomy j en with hlt | heq | hgt
        · -- import before the export: route lands at position en + 1
          have hcond : lastImportIndex ss ≤ (en : Int) - 1 := by
            rw [hjv]; push_cast; omega
          rw [if_pos hcond]
          have hout := insertImportAndRoute_imp_before_rt ss
            (createImportDeclaration u.routerName u.importPath)
            (createRouteRegistration u.routerName u.routePath)
            j en hjv henv hlt (le_of_lt hen)
          rw [addRoute, hout]
          have hform : ss.take (j + 1) ++
              [createImportDeclaration u.routerName u.importPath] ++
              (ss.take en).drop (j + 1) ++
              [createRouteRegistration u.routerName u.routePath] ++ ss.drop en =
              (ss.take (j + 1) ++
                [createImportDeclaration u.routerName u.importPath] ++
                (ss.take en).drop (j + 1)) ++
              (createRouteRegistration u.routerName u.routePath) :: ss.drop en := by
            simp
          rw [hform]
          have hlen : (ss.take (j + 1) ++
              [createImportDeclaration u.routerName u.importPath] ++
              (ss.take en).drop (j + 1)).length = en + 1 := by
            simp [List.length_append, List.length_take, List.length_drop]
            omega
          have hseam := getElem?_append_cons _ (ss.drop en)
            (createRouteRegistration u.routerName u.routePath) (en + 1) hlen
          refine ⟨hseam.1, ?_⟩
          rw [hseam.2, List.getElem?_drop]
          simp
        · exact absurd heq (scan_positions_ne ss j en sk se hskq hski hseq hsee)
        · -- import after the export: route lands at position en
          have hcond : ¬ (lastImportIndex ss ≤ (en : Int) - 1) := by
            rw [hjv]; push_cast; omega
          rw [if_neg hcond]
          have hout := insertImportAndRoute_rt_before_imp ss
            (createImportDeclaration u.routerName u.importPath)
            (createRouteRegistration u.routerName u.routePath)
            j en hjv henv hen1 (le_of_lt hgt) hj
          rw [addRoute, hout]
          have hform : ss.take en ++
              [createRouteRegistration u.routerName u.routePath] ++
              (ss.take (j + 1)).drop en ++
              [createImportDeclaration u.routerName u.importPath] ++
              ss.drop (j + 1) =
              ss.take en ++
              (createRouteRegistration u.routerName u.routePath) ::
                ((ss.take (j + 1)).drop en ++
                  (createImportDeclaration u.routerName u.importPath) ::
                  ss.drop (j + 1)) := by
            simp
          rw [hform]
          have hlen : (ss.take en).length = en + 0 :=
            List.length_take_of_le (le_of_lt hen)
          have hseam := getElem?_append_cons (ss.take en)
            ((ss.take (j + 1)).drop en ++
              (createImportDeclaration u.routerName u.importPath) ::
              ss.drop (j + 1))
            (createRouteRegistration u.routerName u.routePath) (en + 0) hlen
          refine ⟨hseam.1, ?_⟩
          rw [hseam.2]
          have hmidlen : 0 < ((ss.take (j + 1)).drop en).length := by
            rw [List.length_drop, List.length_take_of_le (by omega)]
            omega
          rw [List.getElem?_append_left hmidlen, List.getElem?_drop]
          have h0 : en + 0 < j + 1 := by omega
          rw [List.getElem?_take_of_lt h0]
          simp
    · intro he0
      subst he0
      rcases lastImportIndex_cases ss with hknone | ⟨j, hj, hjv, sk, hskq, hski⟩
      · have hout := insertImportAndRoute_none ss
          (createImportDeclaration u.routerName u.importPath)
          (createRouteRegistration u.routerName u.routePath)
          hknone (by rw [henv]; omega)
        rw [addRoute, hout, ← List.cons_append]
        exact List.getLast?_concat _
      · have hout := insertImportAndRoute_imp_only ss
          (createImportDeclaration u.routerName u.importPath)
          (createRouteRegistration u.routerName u.routePath)
          j hjv (by rw [henv]; omega) hj
        rw [addRoute, hout]
        have hform : ss.take (j + 1) ++
            [createImportDeclaration u.routerName u.importPath] ++
            ss.drop (j + 1) ++
            [createRouteRegistration u.routerName u.routePath] =
            (ss.take (j + 1) ++
              [createImportDeclaration u.routerName u.importPath] ++
              ss.drop (j + 1)) ++
            [createRouteRegistration u.routerName u.routePath] := by
          simp
        rw [hform]
        exact List.getLast?_concat _

/-- Witness for the amended C3 at a concrete input. -/
theorem addRoute_route_before_export_amended_witness :
    exportDefaultIndex sampleBodyThenExportFile = (1 : Int) ∧
    ((addRoute sampleBodyThenExportFile sampleUpdate)[1 +
        if lastImportIndex sampleBodyThenExportFile ≤ (1 : Int) - 1 then 1 else 0]? =
      some (createRouteRegistration sampleUpdate.routerName sampleUpdate.routePath) ∧
     (addRoute sampleBodyThenExportFile sampleUpdate)[(1 +
        if lastImportIndex sampleBodyThenExportFile ≤ (1 : Int) - 1 then 1 else 0) + 1]? =
      sampleBodyThenExportFile[1]?) := by
  refine ⟨by decide, ?_⟩
  exact (addRoute_route_before_export_amended sampleBodyThenExportFile sampleUpdate 1
    (by decide)).1 (by decide)

/-- **C6.** Both `addRoute` fallbacks apply independently: with no
export-default statement the new registration ends up the last element of
the output, and with no import declaration the new import ends up the
first element — so with neither, the import is first and the registration
last. -/
theorem addRoute_fallbacks (ss : List Stmt) (u : RouteUpdate) :
    ((∀ s ∈ ss, isExportDefaultForm s = false) →
      (addRoute ss u).getLast? =
        some (createRouteRegistration u.routerName u.routePath)) ∧
    ((∀ s ∈ ss, isImportDeclaration s = false) →
      (addRoute ss u).head? =
        some (createImportDeclaration u.routerName u.importPath)) := by
  constructor
  · intro h
    have he := exportDefaultIndex_of_no_export ss h
    rcases lastImportIndex_cases ss with hknone | ⟨j, hj, hjv, sk, hskq, hski⟩
    · rw [addRoute, insertImportAndRoute_none ss _ _ hknone (by rw [he]; omega),
        ← List.cons_append]
      exact List.getLast?_concat _
    · rw [addRoute, insertImportAndRoute_imp_only ss _ _ j hjv (by rw [he]; omega) hj]
      have hform : ss.take (j + 1) ++
          [createImportDeclaration u.routerName u.importPath] ++
          ss.drop (j + 1) ++
          [createRouteRegistration u.routerName u.routePath] =
          (ss.take (j + 1) ++
            [createImportDeclaration u.routerName u.importPath] ++
            ss.drop (j + 1)) ++
          [createRouteRegistration u.routerName u.routePath] := by
        simp
      rw [hform]
      exact List.getLast?_concat _
  · intro h
    have hk := lastImportIndex_of_no_import ss h
    rcases exportDefaultIndex_cases ss with he | ⟨en, hen, henv, se, hseq, hsee⟩
    · rw [addRoute, insertImportAndRoute_none ss _ _ hk (by rw [he]; omega)]
      rfl
    · by_cases hen1 : 1 ≤ en
      · rw [addRoute,
          insertImportAndRoute_rt_only ss _ _ en hk henv hen1 (le_of_lt hen)]
        rfl
      · rw [addRoute, insertImportAndRoute_none ss _ _ hk (by rw [henv]; omega)]
        rfl

/-- Witness for C6 at a concrete input. -/
theorem addRoute_fallbacks_witness :
    (addRoute sampleOtherOnlyFile sampleUpdate).getLast? =
      some (createRouteRegistration sampleUpdate.routerName sampleUpdate.routePath) ∧
    (addRoute sampleOtherOnlyFile sampleUpdate).head? =
      some (createImportDeclaration sampleUpdate.routerName sampleUpdate.importPath) :=
  ⟨(addRoute_fallbacks sampleOtherOnlyFile sampleUpdate).1 (by decide),
   (addRoute_fallbacks sampleOtherOnlyFile sampleUpdate).2 (by decide)⟩

/-- **C9.** For a route freshly added by `addRoute` (neither the import nor
a matching registration existed before), `removeRoute` with the bound
name of the request leaves a file on which `importExists` and `routeExists`
answer false. -/
theorem removeRoute_undoes_fresh_addRoute (ss : List Stmt) (u : RouteUpdate)
    (h1 : importExists ss u.routerName = false)
    (h2 : routeExists ss u.routePath = false) :
    importExists (removeRoute (addRoute ss u) u.routerName) u.routerName = false ∧
    routeExists (removeRoute (addRoute ss u) u.routerName) u.routePath = false := by
  refine ⟨importExists_removeRoute _ _, ?_⟩
  cases hbool : routeExists (removeRoute (addRoute ss u) u.routerName) u.routePath
  · rfl
  · exfalso
    rw [routeExists_eq_any, List.any_eq_true] at hbool
    obtain ⟨s, hsmem, hsp⟩ := hbool
    rcases List.mem_filter.mp hsmem with ⟨hsadd, hkeep⟩
    rw [addRoute] at hsadd
    rcases mem_insertImportAndRoute ss _ _ s hsadd with hss | hsimp | hsrt
    · have hex : routeExists ss u.routePath = true := by
        rw [routeExists_eq_any, List.any_eq_true]
        exact ⟨s, hss, hsp⟩
      rw [h2] at hex
      exact Bool.false_ne_true hex
    · subst hsimp
      simp [isUseRegistrationWithPath, createImportDeclaration] at hsp
    · subst hsrt
      have hrm : shouldRemove u.routerName
          (createRouteRegistration u.routerName u.routePath) = true := by
        simp [shouldRemove, createRouteRegistration]
      simp [hrm] at hkeep

/-- Witness for C9 at a concrete input. -/
theorem removeRoute_undoes_fresh_addRoute_witness :
    importExists sampleOtherOnlyFile sampleUpdate.routerName = false ∧
    routeExists sampleOtherOnlyFile sampleUpdate.routePath = false ∧
    importExists (removeRoute (addRoute sampleOtherOnlyFile sampleUpdate)
      sampleUpdate.routerName) sampleUpdate.routerName = false ∧
    routeExists (removeRoute (addRoute sampleOtherOnlyFile sampleUpdate)
      sampleUpdate.routerName) sampleUpdate.routePath = false := by
  refine ⟨by decide, by decide, ?_⟩
  exact removeRoute_undoes_fresh_addRoute sampleOtherOnlyFile sampleUpdate
    (by decide) (by decide)

end Katax
